import Mathlib

/-!
# Verification of the AWS billing dashboard data-processing core

Shallow embedding of `src/data_processor.py` (`BillingDataProcessor`).

Modelling conventions:
* A pandas `DataFrame` of billing rows is a `List CostRecord` (row order =
  DataFrame row order).
* Calendar dates are integers counting days; day `0` is Monday 2024-01-01,
  so `d % 7 = 0` exactly when `d` is a Monday.  `pd.to_datetime` on the
  ISO `YYYY-MM-DD` strings of the raw report is modelled by storing the
  already-parsed day number in the raw structures.
* Monetary amounts are `ℚ` (Python floats hold exact values for the
  decimal literals appearing in the claims; all claim-level arithmetic
  here is exact).
* Python `dict` lookups that may raise `KeyError`, and `float(...)` which
  may raise `ValueError`, are modelled with `Option` fields and an
  `Except String` result: `Except.error` is a raised exception escaping
  `process_cost_and_usage_response`.
* `groupby` sorts its keys ascending (pandas semantics) and aggregates the
  rows of each group; `sort_values(..., ascending=False)` on the grouped
  frame is modelled as a stable descending sort of the grouped list.
-/

/-- One row of the processed billing DataFrame (columns `StartDate`,
`EndDate`, `Service`, `MetricName`, `Amount`, `Unit`). -/
structure CostRecord where
  startDate : ℤ
  endDate : ℤ
  service : String
  metricName : String
  amount : ℚ
  unit : String
deriving DecidableEq

/-- The `{Amount, Unit}` value of one metric in the raw Cost Explorer
response; `Amount` is a decimal string. -/
structure MetricVal where
  amount : String
  unit : String
deriving DecidableEq

/-- One entry of a `Groups` list in the raw response: a key list and a
metrics mapping (insertion-ordered, as Python dicts are). -/
structure RawGroup where
  keys : List String
  metrics : List (String × MetricVal)
deriving DecidableEq

/-- One entry of `ResultsByTime`.  `timePeriod` is `none` when the
`TimePeriod` key is absent (its dates are stored pre-parsed as day
numbers); `groups`/`total` are `none` when the `Groups`/`Total` keys are
absent. -/
structure RawResult where
  timePeriod : Option (ℤ × ℤ)
  groups : Option (List RawGroup)
  total : Option (List (String × MetricVal))
deriving DecidableEq

/-- The raw Cost Explorer response; `resultsByTime = none` models a
response dict without the `ResultsByTime` key.  An absent or falsy (empty)
response is modelled by `none : Option RawResponse` at the call site. -/
structure RawResponse where
  resultsByTime : Option (List RawResult)
deriving DecidableEq

/-- Numeric value of a list of decimal digit characters. -/
def digitsVal (cs : List Char) : ℕ :=
  cs.foldl (fun n c => 10 * n + (c.toNat - 48)) 0

/-- Embedding of Python `float(s)` restricted to plain decimal literals
(optional sign, digits, optional decimal point): returns `none` exactly
when `float` would raise `ValueError` on such a string. -/
def parseAmount (s : String) : Option ℚ :=
  let signed : Bool × List Char :=
    match s.data with
    | '-' :: rest => (true, rest)
    | '+' :: rest => (false, rest)
    | cs => (false, cs)
  let body := signed.2
  let mk : ℚ → Option ℚ := fun q => some (if signed.1 then -q else q)
  match body.splitOn '.' with
  | [ip] =>
      if ip ≠ [] ∧ ip.all Char.isDigit then mk (digitsVal ip) else none
  | [ip, fp] =>
      if (ip ≠ [] ∨ fp ≠ []) ∧ ip.all Char.isDigit ∧ fp.all Char.isDigit then
        mk ((digitsVal ip : ℚ) + (digitsVal fp : ℚ) / ((10 : ℚ) ^ fp.length))
      else none
  | _ => none

/-- Rows emitted for one metrics mapping (the inner
`for metric_name, metric_data in metrics.items()` loop); errors on the
first amount string `float` cannot parse. -/
def recordsOfMetrics (s e : ℤ) (svc : String) :
    List (String × MetricVal) → Except String (List CostRecord)
  | [] => .ok []
  | (name, mv) :: rest =>
    match parseAmount mv.amount with
    | none => .error ("could not convert string to float: " ++ mv.amount)
    | some q =>
      match recordsOfMetrics s e svc rest with
      | .error msg => .error msg
      | .ok rs => .ok (⟨s, e, svc, name, q, mv.unit⟩ :: rs)

/-- Rows emitted for a `Groups` list; the service is the first key if
present, else `"Total"`. -/
def recordsOfGroups (s e : ℤ) :
    List RawGroup → Except String (List CostRecord)
  | [] => .ok []
  | g :: rest =>
    let svc := match g.keys with
      | [] => "Total"
      | k :: _ => k
    match recordsOfMetrics s e svc g.metrics with
    | .error msg => .error msg
    | .ok rs =>
      match recordsOfGroups s e rest with
      | .error msg => .error msg
      | .ok rest' => .ok (rs ++ rest')

/-- Rows emitted for one `ResultsByTime` entry: `result['TimePeriod']`
raises if absent; if `'Groups' in result` the groups are iterated,
otherwise `result['Total']` is read (raising if absent too). -/
def recordsOfResult (res : RawResult) : Except String (List CostRecord) :=
  match res.timePeriod with
  | none => .error "KeyError: TimePeriod"
  | some (s, e) =>
    match res.groups with
    | some gs => recordsOfGroups s e gs
    | none =>
      match res.total with
      | none => .error "KeyError: Total"
      | some ms => recordsOfMetrics s e "Total" ms

/-- Rows emitted for the whole `ResultsByTime` list, in source order. -/
def processResults : List RawResult → Except String (List CostRecord)
  | [] => .ok []
  | res :: rest =>
    match recordsOfResult res with
    | .error msg => .error msg
    | .ok rs =>
      match processResults rest with
      | .error msg => .error msg
      | .ok rest' => .ok (rs ++ rest')

/-- Embedding of `BillingDataProcessor.process_cost_and_usage_response`:
an absent/falsy response or one without `ResultsByTime` yields an empty
DataFrame; otherwise the rows are built per period entry, and any raised
`KeyError`/`ValueError` escapes as `Except.error`. -/
def processResponse (resp : Option RawResponse) :
    Except String (List CostRecord) :=
  match resp with
  | none => .ok []
  | some r =>
    match r.resultsByTime with
    | none => .ok []
    | some results => processResults results

/-- `True`/`false` view of an `Except` value (did the call return without
raising?). -/
def exOk : Except String (List CostRecord) → Bool
  | .ok _ => true
  | .error _ => false

/-- Sum of the `Amount` column. -/
def amountSum (rs : List CostRecord) : ℚ :=
  (rs.map (·.amount)).sum

/-- Strings of a list sorted ascending, duplicates removed (the index a
pandas `groupby` produces). -/
def sortedDedup (l : List String) : List String :=
  List.insertionSort (· ≤ ·) l.dedup

/-- The non-`"Total"`, `BlendedCost` rows of a DataFrame (the filter
shared by `get_top_services_by_cost`, `calculate_service_cost_trends` and
the top-service part of `generate_cost_summary`). -/
def costNonTotal (rs : List CostRecord) : List CostRecord :=
  rs.filter fun r => r.metricName = "BlendedCost" ∧ ¬ r.service = "Total"

/-- `cost_df.groupby('Service')['Amount'].sum()` over the non-`"Total"`
`BlendedCost` rows: one `(service, summed amount)` pair per distinct
service, keys sorted ascending as pandas `groupby` sorts them. -/
def serviceCostList (rs : List CostRecord) : List (String × ℚ) :=
  (sortedDedup ((costNonTotal rs).map (·.service))).map fun s =>
    (s, amountSum ((costNonTotal rs).filter (·.service = s)))

/-- Descending-by-amount comparison used to model
`sort_values('Amount', ascending=False)` on the grouped series. -/
def amtGe (p q : String × ℚ) : Prop := q.2 ≤ p.2

instance : DecidableRel amtGe := fun p q => by unfold amtGe; infer_instance

instance : IsTotal (String × ℚ) amtGe :=
  ⟨fun p q => (le_total q.2 p.2).imp id id⟩

instance : IsTrans (String × ℚ) amtGe :=
  ⟨fun _ _ _ h₁ h₂ => le_trans h₂ h₁⟩

/-- Embedding of `BillingDataProcessor.get_top_services_by_cost`: filter
to `BlendedCost` excluding `"Total"`, group by service summing amounts,
sort descending by amount, return the first `top_n` rows. -/
def getTopServices (rs : List CostRecord) (topN : ℕ) : List (String × ℚ) :=
  if rs = [] then []
  else if costNonTotal rs = [] then []
  else (List.insertionSort amtGe (serviceCostList rs)).take topN

/-- `Series.idxmax` paired with the maximal value: the first entry of the
series attaining the maximum (pandas returns the first occurrence of the
maximum; on the `groupby` output, series order is ascending key order). -/
def firstMax : List (String × ℚ) → Option (String × ℚ)
  | [] => none
  | p :: ps =>
    match firstMax ps with
    | none => some p
    | some q => if p.2 < q.2 then some q else some p

/-- The dict returned by `generate_cost_summary`. -/
structure Summary where
  total_cost : ℚ
  service_count : ℕ
  time_periods : ℕ
  top_service : String
  top_service_cost : ℚ
deriving DecidableEq

/-- Embedding of `BillingDataProcessor.generate_cost_summary`.
`top_service`/`top_service_cost` come from `idxmax`/`max` of the
per-service sums; at the first index attaining the maximum the two agree,
so both are read off `firstMax`. -/
def summarize (rs : List CostRecord) : Summary :=
  if rs = [] then ⟨0, 0, 0, "N/A", 0⟩
  else
    let cost := rs.filter fun r => r.metricName = "BlendedCost"
    { total_cost := amountSum cost
      service_count :=
        ((cost.filter fun r => ¬ r.service = "Total").map (·.service)).dedup.length
      time_periods := (cost.map (·.startDate)).dedup.length
      top_service :=
        match firstMax (serviceCostList rs) with
        | none => "N/A"
        | some p => p.1
      top_service_cost :=
        match firstMax (serviceCostList rs) with
        | none => 0
        | some p => p.2 }

/-- Integer days sorted ascending, duplicates removed (the index of a
`groupby('StartDate')`). -/
def sortedDedupInt (l : List ℤ) : List ℤ :=
  List.insertionSort (· ≤ ·) l.dedup

/-- `groupby('StartDate')['Amount'].sum()` sorted ascending by period
start, as `calculate_cost_trends` builds `total_by_period`. -/
def periodSums (cost : List CostRecord) : List (ℤ × ℚ) :=
  (sortedDedupInt (cost.map (·.startDate))).map fun d =>
    (d, amountSum (cost.filter (·.startDate = d)))

/-- The `average_...` key name chosen by granularity in
`calculate_cost_trends`. -/
def averageLabel (granularity : String) : String :=
  if granularity = "HOURLY" then "average_hourly_cost"
  else if granularity = "WEEKLY" then "average_weekly_cost"
  else if granularity = "MONTHLY" then "average_monthly_cost"
  else "average_daily_cost"

/-- The `..._change_...` key prefix chosen by granularity in
`calculate_cost_trends`. -/
def changeLabel (granularity : String) : String :=
  if granularity = "HOURLY" then "hour_over_hour"
  else if granularity = "WEEKLY" then "week_over_week"
  else if granularity = "MONTHLY" then "month_over_month"
  else "day_over_day"

/-- The dict returned by `calculate_cost_trends` when the filtered frame
is non-empty.  `change_percent`/`change_amount` model both the
granularity-labelled keys and their `mom_...` aliases (the code always
writes the four keys together with pairwise equal values); `none` means
the keys are absent from the dict. -/
structure Trends where
  total_cost : ℚ
  average_cost : ℚ
  average_label : String
  periods : ℕ
  cost_by_period : List (ℤ × ℚ)
  granularity : String
  change_percent : Option ℚ
  change_amount : Option ℚ
deriving DecidableEq

/-- Embedding of `BillingDataProcessor.calculate_cost_trends`; `none`
models the empty dict returned for an empty frame or one without
`BlendedCost` rows.  The change fields are populated only when there are
at least two periods and the previous period's sum is strictly positive
(the code guards both assignments by `previous_cost > 0`). -/
def calculateCostTrends (rs : List CostRecord) (granularity : String) :
    Option Trends :=
  if rs = [] then none
  else
    let cost := rs.filter fun r => r.metricName = "BlendedCost"
    if cost = [] then none
    else
      let tbp := periodSums cost
      let change : Option (ℚ × ℚ) :=
        match tbp.reverse with
        | cur :: prev :: _ =>
          if 0 < prev.2 then
            some ((cur.2 - prev.2) / prev.2 * 100, cur.2 - prev.2)
          else none
        | _ => none
      some
        { total_cost := (tbp.map (·.2)).sum
          average_cost := (tbp.map (·.2)).sum / (tbp.length : ℚ)
          average_label := averageLabel granularity
          periods := tbp.length
          cost_by_period := tbp
          granularity := granularity
          change_percent := change.map (·.1)
          change_amount := change.map (·.2) }

/-- The cell of the `pivot_table` built by `calculate_service_cost_trends`
for period `d` and service `s`: pandas `pivot_table` uses its default
`aggfunc='mean'`, and `fill_value=0` fills combinations with no rows. -/
def serviceTrendCell (rs : List CostRecord) (d : ℤ) (s : String) : ℚ :=
  let xs := (costNonTotal rs).filter fun r => r.startDate = d ∧ r.service = s
  if xs = [] then 0 else amountSum xs / (xs.length : ℚ)

/-- Embedding of `BillingDataProcessor.calculate_service_cost_trends`:
rows are the distinct period starts ascending, columns the distinct
services ascending, cells from `serviceTrendCell`.  Each row is the pair
`(period_start, cells in column order)`. -/
def serviceTrendTable (rs : List CostRecord) :
    List (ℤ × List (String × ℚ)) :=
  if rs = [] then []
  else if costNonTotal rs = [] then []
  else
    (sortedDedupInt ((costNonTotal rs).map (·.startDate))).map fun d =>
      (d, (sortedDedup ((costNonTotal rs).map (·.service))).map fun s =>
            (s, serviceTrendCell rs d s))

/-- `StartDate.dt.to_period('W-MON').dt.start_time` as a day number: a
pandas weekly period anchored `W-MON` *ends* on Monday, so it begins on
the preceding Tuesday; with day `0` a Monday, the period containing `d`
starts at the unique Tuesday `≤ d`, i.e. `d - ((d - 1) mod 7)`. -/
def wMonStart (d : ℤ) : ℤ := d - (d - 1) % 7

/-- Modelled from the spec: the start of the ISO calendar week of `d`
(the week beginning Monday), stated only for comparison with the code's
`wMonStart`; the code under `src/` is the authority for behaviour. -/
def isoWeekStartSpec (d : ℤ) : ℤ := d - d % 7

/-- The grouping key of `aggregate_to_weekly`:
`(WeekStart, Service, MetricName, Unit)`. -/
def weeklyKey (r : CostRecord) : ℤ × String × String × String :=
  (wMonStart r.startDate, r.service, r.metricName, r.unit)

/-- Lexicographic order on weekly grouping keys (pandas sorts the
`groupby` multi-index ascending). -/
def wkeyLe (a b : ℤ × String × String × String) : Prop :=
  a.1 < b.1 ∨ (a.1 = b.1 ∧ (a.2.1 < b.2.1 ∨ (a.2.1 = b.2.1 ∧
    (a.2.2.1 < b.2.2.1 ∨ (a.2.2.1 = b.2.2.1 ∧ a.2.2.2 ≤ b.2.2.2)))))

instance : DecidableRel wkeyLe := fun a b => by unfold wkeyLe; infer_instance

/-- Embedding of `BillingDataProcessor.aggregate_to_weekly`: group by
`(WeekStart, Service, MetricName, Unit)` summing `Amount`; each output row
gets `StartDate = WeekStart` and `EndDate = WeekStart + 6 days`. -/
def aggregateToWeekly (rs : List CostRecord) : List CostRecord :=
  if rs = [] then rs
  else
    (List.insertionSort wkeyLe (rs.map weeklyKey).dedup).map fun k =>
      ⟨k.1, k.1 + 6, k.2.1, k.2.2.1,
        amountSum (rs.filter fun r => weeklyKey r = k), k.2.2.2⟩

/-- The amount strings the normalizer actually parses for one period
entry: the metrics of its groups when `Groups` is present, else the
metrics of its `Total` mapping. -/
def visitedAmounts (res : RawResult) : List String :=
  match res.groups with
  | some gs => (gs.map fun g => g.metrics.map fun m => m.2.amount).flatten
  | none =>
    match res.total with
    | some ms => ms.map fun m => m.2.amount
    | none => []

/-- All amount strings the normalizer parses across `ResultsByTime`. -/
def responseAmounts (results : List RawResult) : List String :=
  (results.map visitedAmounts).flatten

/-- Scenario A raw report: two monthly periods
(2024-01-01 = day 0 and 2024-02-01 = day 31), services `EC2`
(`100.50`/`120.00`) and `S3` (`25.75`/`30.25`), each present in both
periods with metric `BlendedCost`. -/
def scenarioAResp : RawResponse :=
  ⟨some
    [⟨some (0, 30),
      some [⟨["EC2"], [("BlendedCost", ⟨"100.50", "USD"⟩)]⟩,
            ⟨["S3"], [("BlendedCost", ⟨"25.75", "USD"⟩)]⟩], none⟩,
     ⟨some (31, 59),
      some [⟨["EC2"], [("BlendedCost", ⟨"120.00", "USD"⟩)]⟩,
            ⟨["S3"], [("BlendedCost", ⟨"30.25", "USD"⟩)]⟩], none⟩]⟩

/-- The normalized record set of Scenario A. -/
def scenarioARecs : List CostRecord :=
  [⟨0, 30, "EC2", "BlendedCost", 100.50, "USD"⟩,
   ⟨0, 30, "S3", "BlendedCost", 25.75, "USD"⟩,
   ⟨31, 59, "EC2", "BlendedCost", 120.00, "USD"⟩,
   ⟨31, 59, "S3", "BlendedCost", 30.25, "USD"⟩]

/-- Seven consecutive daily records for one service, days 1..7
(Tuesday 2024-01-02 through Monday 2024-01-08), amounts 1..7.  Days 1..6
lie in the ISO week starting Monday day 0 and day 7 in the ISO week
starting Monday day 7, so the records span two ISO calendar weeks. -/
def sevenDays : List CostRecord :=
  (List.range 7).map fun i =>
    ⟨1 + i, 2 + i, "EC2", "BlendedCost", (i : ℚ) + 1, "USD"⟩

/-- Two periods whose earlier (previous) period has a negative total:
day 0 sums to −10, day 1 to 5. -/
def negPrevRecs : List CostRecord :=
  [⟨0, 1, "EC2", "BlendedCost", -10, "USD"⟩,
   ⟨1, 2, "EC2", "BlendedCost", 5, "USD"⟩]

/-- Three services tied at 10, first seen in the order `B`, `C`, `A`. -/
def tiedEncounterRecs : List CostRecord :=
  [⟨0, 1, "B", "BlendedCost", 10, "USD"⟩,
   ⟨0, 1, "C", "BlendedCost", 10, "USD"⟩,
   ⟨0, 1, "A", "BlendedCost", 10, "USD"⟩]

/-- Two rows for the same `(period_start, service)` pair, amounts 10
and 20. -/
def dupPairRecs : List CostRecord :=
  [⟨0, 1, "EC2", "BlendedCost", 10, "USD"⟩,
   ⟨0, 1, "EC2", "BlendedCost", 20, "USD"⟩]

/-- A raw report whose single period entry is missing `TimePeriod`,
`Groups` and `Total` alike. -/
def malformedResp : RawResponse := ⟨some [⟨none, none, none⟩]⟩

/-- A raw report whose single metric amount string is not numeric. -/
def badAmountResp : RawResponse :=
  ⟨some [⟨some (0, 30),
    some [⟨["EC2"], [("BlendedCost", ⟨"abc", "USD"⟩)]⟩], none⟩]⟩

/-- Services `A` and `B` tied for the maximum 10, `C` below at 5;
encounter order `B`, `C`, `A`. -/
def tiedMaxRecs : List CostRecord :=
  [⟨0, 1, "B", "BlendedCost", 10, "USD"⟩,
   ⟨0, 1, "C", "BlendedCost", 5, "USD"⟩,
   ⟨0, 1, "A", "BlendedCost", 10, "USD"⟩]

/-- A record set carrying no `BlendedCost` rows at all. -/
def metricLessRecs : List CostRecord :=
  [⟨0, 1, "EC2", "UsageQuantity", 100, "Hrs"⟩]

/-- Two same-week records of a single service/metric/unit, for the
sum-preservation witness. -/
def singleServiceRecs : List CostRecord :=
  [⟨1, 2, "EC2", "BlendedCost", 3, "USD"⟩,
   ⟨2, 3, "EC2", "BlendedCost", 4, "USD"⟩]

/-- Two periods with previous sum 10 and current sum 15, one service. -/
def twoPeriodRecs : List CostRecord :=
  [⟨0, 1, "EC2", "BlendedCost", 10, "USD"⟩,
   ⟨1, 2, "EC2", "BlendedCost", 15, "USD"⟩]

section Helpers

/-- Summing a one-key indicator over a duplicate-free key list picks out
the single matching term. -/
lemma sum_ite_key {κ : Type} [DecidableEq κ] (k₀ : κ) (q : ℚ) :
    ∀ ks : List κ, ks.Nodup → k₀ ∈ ks →
      (ks.map fun k => if k₀ = k then q else 0).sum = q := by
  intro ks
  induction ks with
  | nil => intro _ h; cases h
  | cons k ks ih =>
    intro hnd hk
    rcases List.nodup_cons.mp hnd with ⟨hkn, hnd'⟩
    by_cases hek : k₀ = k
    · subst hek
      have hz : (ks.map fun x => if k₀ = x then q else 0)
          = ks.map fun _ => (0 : ℚ) := by
        apply List.map_congr_left
        intro a ha
        have hne : k₀ ≠ a := fun h => hkn (h ▸ ha)
        simp [hne]
      simp [hz]
    · have hk' : k₀ ∈ ks := by
        rcases List.mem_cons.mp hk with h | h
        · exact absurd h hek
        · exact h
      simp [hek, ih hnd' hk']

/-- Group-and-sum is sum-preserving: summing, over a duplicate-free key
list covering all rows, the amount of each key's filtered group gives the
grand total. -/
lemma sum_groups {α κ : Type} [DecidableEq κ] (key : α → κ) (amt : α → ℚ) :
    ∀ (l : List α) (ks : List κ), ks.Nodup → (∀ a ∈ l, key a ∈ ks) →
      (ks.map fun k => ((l.filter fun a => key a = k).map amt).sum).sum
        = (l.map amt).sum := by
  intro l
  induction l with
  | nil => intro ks _ _; simp
  | cons a l ih =>
    intro ks hnd hcov
    have hstep :
        (ks.map fun k => (((a :: l).filter fun x => key x = k).map amt).sum)
          = ks.map fun k =>
              (if key a = k then amt a else 0)
                + ((l.filter fun x => key x = k).map amt).sum := by
      apply List.map_congr_left
      intro k _
      by_cases h : key a = k
      · simp [List.filter_cons, h]
      · simp [List.filter_cons, h]
    rw [hstep, List.sum_map_add,
      sum_ite_key (key a) (amt a) ks hnd (hcov a (List.mem_cons_self a l)),
      ih ks hnd fun x hx => hcov x (List.mem_cons_of_mem a hx)]
    simp

lemma sortedDedup_nodup (l : List String) : (sortedDedup l).Nodup :=
  (List.perm_insertionSort _ _).nodup_iff.mpr l.nodup_dedup

lemma sortedDedup_mem {l : List String} {s : String} :
    s ∈ sortedDedup l ↔ s ∈ l := by
  unfold sortedDedup
  rw [(List.perm_insertionSort _ _).mem_iff, List.mem_dedup]

/-- The grouped index is strictly increasing: sorted and duplicate-free. -/
lemma sortedDedup_pairwise_lt (l : List String) :
    (sortedDedup l).Pairwise (· < ·) := by
  have h₁ : (sortedDedup l).Pairwise (· ≤ ·) :=
    List.sorted_insertionSort _ _
  have h₂ : (sortedDedup l).Pairwise (· ≠ ·) := sortedDedup_nodup l
  exact (h₁.and h₂).imp fun h => lt_of_le_of_ne h.1 h.2

lemma sortedDedupInt_nodup (l : List ℤ) : (sortedDedupInt l).Nodup :=
  (List.perm_insertionSort _ _).nodup_iff.mpr l.nodup_dedup

lemma sortedDedupInt_mem {l : List ℤ} {d : ℤ} :
    d ∈ sortedDedupInt l ↔ d ∈ l := by
  unfold sortedDedupInt
  rw [(List.perm_insertionSort _ _).mem_iff, List.mem_dedup]

lemma sortedDedupInt_pairwise_lt (l : List ℤ) :
    (sortedDedupInt l).Pairwise (· < ·) := by
  have h₁ : (sortedDedupInt l).Pairwise (· ≤ ·) :=
    List.sorted_insertionSort _ _
  have h₂ : (sortedDedupInt l).Pairwise (· ≠ ·) := sortedDedupInt_nodup l
  exact (h₁.and h₂).imp fun h => lt_of_le_of_ne h.1 h.2

/-- The per-service series of `serviceCostList` has strictly increasing
service names. -/
lemma serviceCostList_pairwise (rs : List CostRecord) :
    (serviceCostList rs).Pairwise fun p q => p.1 < q.1 := by
  unfold serviceCostList
  rw [List.pairwise_map]
  exact sortedDedup_pairwise_lt _

end Helpers

section FirstMaxLemmas

lemma firstMax_isSome (l : List (String × ℚ)) (h : l ≠ []) :
    (firstMax l).isSome := by
  cases l with
  | nil => exact absurd rfl h
  | cons p ps =>
    unfold firstMax
    cases firstMax ps with
    | none => rfl
    | some q => by_cases hpq : p.2 < q.2 <;> simp [hpq]

lemma eq_nil_of_firstMax_eq_none {l : List (String × ℚ)}
    (h : firstMax l = none) : l = [] := by
  cases l with
  | nil => rfl
  | cons p ps =>
    have := firstMax_isSome (p :: ps) (by simp)
    rw [h] at this
    cases this

/-- `idxmax` semantics on a series with strictly increasing index: the
returned entry is in the series, carries the maximal value, and its index
is the least among all entries attaining that value. -/
lemma firstMax_spec :
    ∀ l : List (String × ℚ), l.Pairwise (fun p q => p.1 < q.1) →
      ∀ r, firstMax l = some r →
        r ∈ l ∧ (∀ p ∈ l, p.2 ≤ r.2) ∧ ∀ p ∈ l, p.2 = r.2 → r.1 ≤ p.1 := by
  intro l
  induction l with
  | nil => intro _ r h; cases h
  | cons p ps ih =>
    intro hpw r hr
    rcases List.pairwise_cons.mp hpw with ⟨hp, hpw'⟩
    unfold firstMax at hr
    cases hfm : firstMax ps with
    | none =>
      rw [hfm] at hr
      have hps : ps = [] := eq_nil_of_firstMax_eq_none hfm
      subst hps
      cases hr
      refine ⟨List.mem_cons_self p [], ?_, ?_⟩
      · intro x hx
        rcases List.mem_cons.mp hx with h | h
        · exact h ▸ le_refl _
        · cases h
      · intro x hx _
        rcases List.mem_cons.mp hx with h | h
        · exact h ▸ le_refl _
        · cases h
    | some q =>
      rw [hfm] at hr
      dsimp only at hr
      rcases ih hpw' q hfm with ⟨hqmem, hqmax, hqtie⟩
      by_cases hlt : p.2 < q.2
      · rw [if_pos hlt] at hr
        cases hr
        refine ⟨List.mem_cons_of_mem p hqmem, ?_, ?_⟩
        · intro x hx
          rcases List.mem_cons.mp hx with h | h
          · exact h ▸ le_of_lt hlt
          · exact hqmax x h
        · intro x hx hxe
          rcases List.mem_cons.mp hx with h | h
          · exact absurd (h ▸ hxe) (ne_of_lt hlt)
          · exact hqtie x h hxe
      · rw [if_neg hlt] at hr
        cases hr
        refine ⟨List.mem_cons_self p ps, ?_, ?_⟩
        · intro x hx
          rcases List.mem_cons.mp hx with h | h
          · exact h ▸ le_refl _
          · exact le_trans (hqmax x h) (not_lt.mp hlt)
        · intro x hx _
          rcases List.mem_cons.mp hx with h | h
          · exact h ▸ le_refl _
          · exact le_of_lt (hp x h)

end FirstMaxLemmas

/-- Weekly re-bucketing preserves the grand total of `Amount`: the output
rows are the filtered groups of a duplicate-free key list covering every
input row. -/
lemma aggregateToWeekly_amountSum (rs : List CostRecord) :
    amountSum (aggregateToWeekly rs) = amountSum rs := by
  by_cases h : rs = []
  · subst h; rfl
  · unfold aggregateToWeekly amountSum
    rw [if_neg h, List.map_map]
    exact sum_groups weeklyKey (·.amount) rs
      (List.insertionSort wkeyLe (rs.map weeklyKey).dedup)
      ((List.perm_insertionSort _ _).nodup_iff.mpr (rs.map weeklyKey).nodup_dedup)
      fun r hr => (List.perm_insertionSort _ _).mem_iff.mpr
        (List.mem_dedup.mpr (List.mem_map_of_mem weeklyKey hr))

section NormalizerLemmas

lemma recordsOfResult_err (res : RawResult)
    (h : res.timePeriod = none ∨ (res.groups = none ∧ res.total = none)) :
    ∃ msg, recordsOfResult res = .error msg := by
  rcases res with ⟨tp, gs, tot⟩
  cases tp with
  | none => exact ⟨"KeyError: TimePeriod", rfl⟩
  | some se =>
    rcases h with h | ⟨hg, ht⟩
    · exact Option.noConfusion h
    · dsimp only at hg ht
      subst hg
      subst ht
      rcases se with ⟨s, e⟩
      exact ⟨"KeyError: Total", rfl⟩

/-- A malformed period entry anywhere in `ResultsByTime` makes the whole
call raise. -/
lemma processResults_err (results : List RawResult)
    (h : ∃ res ∈ results,
      res.timePeriod = none ∨ (res.groups = none ∧ res.total = none)) :
    exOk (processResults results) = false := by
  induction results with
  | nil => obtain ⟨res, hmem, _⟩ := h; cases hmem
  | cons a rest ih =>
    obtain ⟨res, hmem, hmal⟩ := h
    rcases List.mem_cons.mp hmem with heq | hmem'
    · subst heq
      obtain ⟨msg, hmsg⟩ := recordsOfResult_err res hmal
      simp [processResults, hmsg, exOk]
    · cases ha : recordsOfResult a with
      | error msg => simp [processResults, ha, exOk]
      | ok rsa =>
        have hih := ih ⟨res, hmem', hmal⟩
        cases hrest : processResults rest with
        | error msg => simp [processResults, ha, hrest, exOk]
        | ok rr => rw [hrest] at hih; simp [exOk] at hih

lemma recordsOfMetrics_err (s e : ℤ) (svc : String)
    (ms : List (String × MetricVal))
    (h : ∃ m ∈ ms, parseAmount m.2.amount = none) :
    ∃ msg, recordsOfMetrics s e svc ms = .error msg := by
  induction ms with
  | nil => obtain ⟨m, hmem, _⟩ := h; cases hmem
  | cons a rest ih =>
    obtain ⟨m, hmem, hbad⟩ := h
    rcases a with ⟨name, mv⟩
    rcases List.mem_cons.mp hmem with heq | hmem'
    · subst heq
      exact ⟨"could not convert string to float: " ++ mv.amount,
        by simp [recordsOfMetrics, hbad]⟩
    · cases hp : parseAmount mv.amount with
      | none =>
        exact ⟨"could not convert string to float: " ++ mv.amount,
          by simp [recordsOfMetrics, hp]⟩
      | some q =>
        obtain ⟨msg, hmsg⟩ := ih ⟨m, hmem', hbad⟩
        exact ⟨msg, by simp [recordsOfMetrics, hp, hmsg]⟩

lemma recordsOfMetrics_ok (s e : ℤ) (svc : String) :
    ∀ (ms : List (String × MetricVal)) (rs : List CostRecord),
      recordsOfMetrics s e svc ms = .ok rs →
      ∀ rec ∈ rs, ∃ m ∈ ms, parseAmount m.2.amount = some rec.amount := by
  intro ms
  induction ms with
  | nil =>
    intro rs h rec hrec
    cases h
    cases hrec
  | cons a rest ih =>
    intro rs h rec hrec
    rcases a with ⟨name, mv⟩
    cases hp : parseAmount mv.amount with
    | none => rw [recordsOfMetrics, hp] at h; cases h
    | some q =>
      rw [recordsOfMetrics, hp] at h
      cases hrest : recordsOfMetrics s e svc rest with
      | error msg => rw [hrest] at h; cases h
      | ok rs' =>
        rw [hrest] at h
        cases h
        rcases List.mem_cons.mp hrec with heq | hmem'
        · subst heq
          exact ⟨(name, mv), List.mem_cons_self _ _, hp⟩
        · obtain ⟨m, hm, hpm⟩ := ih rs' hrest rec hmem'
          exact ⟨m, List.mem_cons_of_mem _ hm, hpm⟩

end NormalizerLemmas

section NormalizerAmountLemmas

lemma recordsOfGroups_err (s e : ℤ) (gs : List RawGroup)
    (h : ∃ g ∈ gs, ∃ m ∈ g.metrics, parseAmount m.2.amount = none) :
    ∃ msg, recordsOfGroups s e gs = .error msg := by
  induction gs with
  | nil => obtain ⟨g, hmem, _⟩ := h; cases hmem
  | cons a rest ih =>
    obtain ⟨g, hmem, hbad⟩ := h
    rcases List.mem_cons.mp hmem with heq | hmem'
    · subst heq
      obtain ⟨msg, hmsg⟩ := recordsOfMetrics_err s e
        (match g.keys with | [] => "Total" | k :: _ => k) g.metrics hbad
      exact ⟨msg, by simp [recordsOfGroups, hmsg]⟩
    · cases hm : recordsOfMetrics s e
          (match a.keys with | [] => "Total" | k :: _ => k) a.metrics with
      | error msg => exact ⟨msg, by simp [recordsOfGroups, hm]⟩
      | ok rsa =>
        obtain ⟨msg, hmsg⟩ := ih ⟨g, hmem', hbad⟩
        exact ⟨msg, by simp [recordsOfGroups, hm, hmsg]⟩

lemma recordsOfGroups_ok (s e : ℤ) :
    ∀ (gs : List RawGroup) (rs : List CostRecord),
      recordsOfGroups s e gs = .ok rs →
      ∀ rec ∈ rs, ∃ g ∈ gs, ∃ m ∈ g.metrics,
        parseAmount m.2.amount = some rec.amount := by
  intro gs
  induction gs with
  | nil =>
    intro rs h rec hrec
    cases h
    cases hrec
  | cons a rest ih =>
    intro rs h rec hrec
    rw [recordsOfGroups] at h
    cases hm : recordsOfMetrics s e
        (match a.keys with | [] => "Total" | k :: _ => k) a.metrics with
    | error msg => rw [hm] at h; cases h
    | ok rsa =>
      rw [hm] at h
      cases hrest : recordsOfGroups s e rest with
      | error msg => rw [hrest] at h; cases h
      | ok rr =>
        rw [hrest] at h
        cases h
        rcases List.mem_append.mp hrec with hmem | hmem
        · obtain ⟨m, hm', hpm⟩ := recordsOfMetrics_ok s e _ a.metrics rsa hm rec hmem
          exact ⟨a, List.mem_cons_self _ _, m, hm', hpm⟩
        · obtain ⟨g, hg, m, hm', hpm⟩ := ih rr hrest rec hmem
          exact ⟨g, List.mem_cons_of_mem _ hg, m, hm', hpm⟩

/-- A visited amount string nowhere parseable makes one period entry
raise. -/
lemma recordsOfResult_amounts_err (res : RawResult)
    (h : ∃ s ∈ visitedAmounts res, parseAmount s = none) :
    exOk (recordsOfResult res) = false := by
  rcases res with ⟨tp, gs, tot⟩
  cases tp with
  | none => rfl
  | some se =>
    rcases se with ⟨ds, de⟩
    cases gs with
    | some gl =>
      obtain ⟨s, hmem, hbad⟩ := h
      unfold visitedAmounts at hmem
      dsimp only at hmem
      rw [List.mem_flatten] at hmem
      obtain ⟨l, hl, hsl⟩ := hmem
      rw [List.mem_map] at hl
      obtain ⟨g, hg, rfl⟩ := hl
      rw [List.mem_map] at hsl
      obtain ⟨m, hmm, rfl⟩ := hsl
      obtain ⟨msg, hmsg⟩ := recordsOfGroups_err ds de gl ⟨g, hg, m, hmm, hbad⟩
      simp [recordsOfResult, hmsg, exOk]
    | none =>
      cases tot with
      | none => rfl
      | some ms =>
        obtain ⟨s, hmem, hbad⟩ := h
        unfold visitedAmounts at hmem
        dsimp only at hmem
        rw [List.mem_map] at hmem
        obtain ⟨m, hmm, rfl⟩ := hmem
        obtain ⟨msg, hmsg⟩ := recordsOfMetrics_err ds de "Total" ms ⟨m, hmm, hbad⟩
        simp [recordsOfResult, hmsg, exOk]

/-- The amounts of the rows of one successfully normalized period entry
all come from parsing its visited amount strings. -/
lemma recordsOfResult_amounts_ok (res : RawResult) (rs : List CostRecord)
    (h : recordsOfResult res = .ok rs) :
    ∀ rec ∈ rs, ∃ s ∈ visitedAmounts res, parseAmount s = some rec.amount := by
  intro rec hrec
  rcases res with ⟨tp, gs, tot⟩
  cases tp with
  | none => cases h
  | some se =>
    rcases se with ⟨ds, de⟩
    cases gs with
    | some gl =>
      obtain ⟨g, hg, m, hmm, hpm⟩ :=
        recordsOfGroups_ok ds de gl rs h rec hrec
      refine ⟨m.2.amount, ?_, hpm⟩
      unfold visitedAmounts
      dsimp only
      rw [List.mem_flatten]
      exact ⟨g.metrics.map fun m => m.2.amount,
        List.mem_map_of_mem _ hg, List.mem_map_of_mem _ hmm⟩
    | none =>
      cases tot with
      | none => cases h
      | some ms =>
        obtain ⟨m, hmm, hpm⟩ := recordsOfMetrics_ok ds de "Total" ms rs h rec hrec
        exact ⟨m.2.amount, List.mem_map_of_mem _ hmm, hpm⟩

end NormalizerAmountLemmas

section ProcessAmountLemmas

lemma processResults_amounts_err (results : List RawResult)
    (h : ∃ s ∈ responseAmounts results, parseAmount s = none) :
    exOk (processResults results) = false := by
  induction results with
  | nil => obtain ⟨s, hmem, _⟩ := h; cases hmem
  | cons a rest ih =>
    obtain ⟨s, hmem, hbad⟩ := h
    have hsplit : s ∈ visitedAmounts a ∨ s ∈ responseAmounts rest := by
      unfold responseAmounts at hmem ⊢
      rw [List.map_cons, List.flatten_cons, List.mem_append] at hmem
      exact hmem
    rcases hsplit with hv | hrest
    · have herr := recordsOfResult_amounts_err a ⟨s, hv, hbad⟩
      cases ha : recordsOfResult a with
      | error msg => simp [processResults, ha, exOk]
      | ok rsa => rw [ha] at herr; simp [exOk] at herr
    · cases ha : recordsOfResult a with
      | error msg => simp [processResults, ha, exOk]
      | ok rsa =>
        have hih := ih ⟨s, hrest, hbad⟩
        cases hr : processResults rest with
        | error msg => simp [processResults, ha, hr, exOk]
        | ok rr => rw [hr] at hih; simp [exOk] at hih

lemma processResults_amounts_ok :
    ∀ (results : List RawResult) (recs : List CostRecord),
      processResults results = .ok recs →
      ∀ rec ∈ recs, ∃ s ∈ responseAmounts results,
        parseAmount s = some rec.amount := by
  intro results
  induction results with
  | nil =>
    intro recs h rec hrec
    cases h
    cases hrec
  | cons a rest ih =>
    intro recs h rec hrec
    rw [processResults] at h
    cases ha : recordsOfResult a with
    | error msg => rw [ha] at h; cases h
    | ok rsa =>
      rw [ha] at h
      cases hr : processResults rest with
      | error msg => rw [hr] at h; cases h
      | ok rr =>
        rw [hr] at h
        cases h
        have hsplit : ∀ t : String, t ∈ visitedAmounts a ∨ t ∈ responseAmounts rest →
            t ∈ responseAmounts (a :: rest) := by
          intro t ht
          unfold responseAmounts
          rw [List.map_cons, List.flatten_cons, List.mem_append]
          exact ht
        rcases List.mem_append.mp hrec with hmem | hmem
        · obtain ⟨s, hs, hps⟩ := recordsOfResult_amounts_ok a rsa ha rec hmem
          exact ⟨s, hsplit s (Or.inl hs), hps⟩
        · obtain ⟨s, hs, hps⟩ := ih rr hr rec hmem
          exact ⟨s, hsplit s (Or.inr hs), hps⟩

end ProcessAmountLemmas

set_option maxRecDepth 10000

/-- C1: on the Scenario A raw report (EC2 = 100.50/120.00,
S3 = 25.75/30.25 over two periods), normalizing, summarizing and
computing trends yields `total_cost = 276.50`, `service_count = 2`,
top service `EC2`, a period-over-period change amount of `24.00` and a
change percent of approximately `19.01%`. -/
theorem scenarioA_end_to_end :
    processResponse (some scenarioAResp) = .ok scenarioARecs ∧
    summarize scenarioARecs = ⟨276.50, 2, 2, "EC2", 220.50⟩ ∧
    (calculateCostTrends scenarioARecs "DAILY").map Trends.change_amount
      = some (some 24) ∧
    (calculateCostTrends scenarioARecs "DAILY").map Trends.change_percent
      = some (some (1920 / 101)) ∧
    |(1920 / 101 : ℚ) - 19.01| < 1 / 100 := by
  refine ⟨?_, ?_, ?_, ?_, ?_⟩
  · with_unfolding_all rfl
  · with_unfolding_all decide
  · with_unfolding_all decide
  · with_unfolding_all decide
  · norm_num [abs_lt]

/-- C2: the code buckets by pandas `W-MON` periods, which END on Monday,
so the seven Tue..Mon daily records of `sevenDays` (spanning two ISO
calendar weeks, as the third conjunct shows) collapse into a single
weekly record anchored on Tuesday day 1 — the spec and the code's own
comment ("Monday of each week") require two ISO-week records with Monday
starts; in particular Monday day 7 is mapped to Tuesday day 1, not to
itself. -/
theorem weekly_bucketing_w_mon_bug :
    aggregateToWeekly sevenDays = [⟨1, 7, "EC2", "BlendedCost", 28, "USD"⟩] ∧
    (aggregateToWeekly sevenDays).length = 1 ∧
    ((sevenDays.map fun r => isoWeekStartSpec r.startDate).dedup).length = 2 ∧
    wMonStart 7 = 1 ∧ isoWeekStartSpec 7 = 7 := by
  refine ⟨?_, ?_, ?_, ?_, ?_⟩ <;> with_unfolding_all decide

/-- The per-period series is strictly increasing in `period_start`. -/
lemma periodSums_pairwise (cost : List CostRecord) :
    (periodSums cost).Pairwise fun a b => a.1 < b.1 := by
  unfold periodSums
  rw [List.pairwise_map]
  exact sortedDedupInt_pairwise_lt _

/-- C3 (counterexample): with two periods whose previous period sums to
−10 (two entries, previous sum nonzero), the code omits BOTH delta
fields, contradicting "the delta fields are present iff the series has at
least 2 entries, except [only the percent] when the previous sum is
exactly zero". -/
theorem trend_delta_negative_prev_counterexample :
    (calculateCostTrends negPrevRecs "DAILY").map Trends.periods = some 2 ∧
    (periodSums (negPrevRecs.filter fun r =>
        r.metricName = "BlendedCost")).reverse.getD 1 (0, 0) = (0, -10) ∧
    (calculateCostTrends negPrevRecs "DAILY").map Trends.change_amount
      = some none ∧
    (calculateCostTrends negPrevRecs "DAILY").map Trends.change_percent
      = some none := by
  refine ⟨?_, ?_, ?_, ?_⟩ <;> with_unfolding_all decide

/-- C3 (amended): whenever `calculate_cost_trends` returns a non-empty
dict, its `cost_by_period` is the ascending per-period summed series, and
the period-over-period delta fields (percent and amount together) are
present if and only if the series has at least 2 entries AND the previous
(second-to-last) period's sum is strictly positive; when present they
equal the stated formulas on the last two entries. -/
theorem trend_change_fields_spec (rs : List CostRecord) (g : String)
    (t : Trends) (h : calculateCostTrends rs g = some t) :
    t.cost_by_period
        = periodSums (rs.filter fun r => r.metricName = "BlendedCost") ∧
    t.periods = t.cost_by_period.length ∧
    t.cost_by_period.Pairwise (fun a b => a.1 < b.1) ∧
    (t.change_amount.isSome ↔
      2 ≤ t.periods ∧ 0 < (t.cost_by_period.reverse.getD 1 (0, 0)).2) ∧
    (t.change_percent.isSome ↔
      2 ≤ t.periods ∧ 0 < (t.cost_by_period.reverse.getD 1 (0, 0)).2) ∧
    (∀ a, t.change_amount = some a →
      a = (t.cost_by_period.reverse.getD 0 (0, 0)).2
            - (t.cost_by_period.reverse.getD 1 (0, 0)).2) ∧
    ∀ p, t.change_percent = some p →
      p = ((t.cost_by_period.reverse.getD 0 (0, 0)).2
            - (t.cost_by_period.reverse.getD 1 (0, 0)).2)
          / (t.cost_by_period.reverse.getD 1 (0, 0)).2 * 100 := by
  simp only [calculateCostTrends] at h
  by_cases hrs : rs = []
  · rw [if_pos hrs] at h; cases h
  · rw [if_neg hrs] at h
    by_cases hc : (rs.filter fun r => r.metricName = "BlendedCost") = []
    · rw [if_pos hc] at h; cases h
    · rw [if_neg hc] at h
      injection h with h2
      subst h2
      dsimp only
      refine ⟨rfl, rfl, periodSums_pairwise _, ?_⟩
      cases hrev :
          (periodSums (rs.filter fun r => r.metricName = "BlendedCost")).reverse with
      | nil =>
        have hlen : (periodSums (rs.filter fun r =>
            r.metricName = "BlendedCost")).length = 0 := by
          rw [← List.length_reverse, hrev]; rfl
        simp [hlen]
      | cons cur rest =>
        cases rest with
        | nil =>
          have hlen : (periodSums (rs.filter fun r =>
              r.metricName = "BlendedCost")).length = 1 := by
            rw [← List.length_reverse, hrev]; rfl
          simp [hlen]
        | cons prev rest' =>
          have hlen : 2 ≤ (periodSums (rs.filter fun r =>
              r.metricName = "BlendedCost")).length := by
            rw [← List.length_reverse, hrev]
            simp
          by_cases hpos : 0 < prev.2
          · simp [hpos, hlen]
          · simp [hpos, hlen]

/-- Witness for the amended C3 theorem at a concrete two-period input. -/
theorem trend_change_fields_spec_witness :
    calculateCostTrends twoPeriodRecs "DAILY" = some
      ⟨25, 25 / 2, "average_daily_cost", 2, [(0, 10), (1, 15)], "DAILY",
        some 50, some 5⟩ ∧
    (⟨25, 25 / 2, "average_daily_cost", 2, [(0, 10), (1, 15)], "DAILY",
        some 50, some 5⟩ : Trends).cost_by_period
      = periodSums (twoPeriodRecs.filter fun r =>
          r.metricName = "BlendedCost") :=
  ⟨by with_unfolding_all decide,
   (trend_change_fields_spec twoPeriodRecs "DAILY" _
      (by with_unfolding_all decide)).1⟩

/-- C4 (counterexample): three services all summing to 10, first seen in
the input in the order `B`, `C`, `A`; the ranking comes back in the order
`A`, `B`, `C` (the alphabetical order of the grouping step), not in the
first-seen order `B`, `C`, `A` the claim requires for ties. -/
theorem top_services_tie_counterexample :
    tiedEncounterRecs.map (·.service) = ["B", "C", "A"] ∧
    (∀ p ∈ getTopServices tiedEncounterRecs 10, p.2 = 10) ∧
    (getTopServices tiedEncounterRecs 10).map Prod.fst = ["A", "B", "C"] ∧
    (["A", "B", "C"] : List String) ≠ ["B", "C", "A"] := by
  refine ⟨?_, ?_, ?_, ?_⟩ <;> with_unfolding_all decide

/-- C4 (amended): the ranking sums amounts per non-`"Total"` service over
primary-metric rows, is sorted in non-increasing order of summed amount
(tie order is decided by the grouping step's key order, not by input
encounter order), and has length `min n (number of distinct non-Total
services)`; every returned pair carries a distinct service together with
its total primary-metric amount. -/
theorem top_services_spec (rs : List CostRecord) (n : ℕ) :
    (getTopServices rs n).Sorted amtGe ∧
    (getTopServices rs n).length
      = min n ((costNonTotal rs).map (·.service)).dedup.length ∧
    ∀ p ∈ getTopServices rs n,
      p.1 ∈ (costNonTotal rs).map (·.service) ∧
      p.2 = amountSum ((costNonTotal rs).filter (·.service = p.1)) := by
  unfold getTopServices
  by_cases hrs : rs = []
  · rw [if_pos hrs]
    subst hrs
    refine ⟨List.sorted_nil, ?_, ?_⟩
    · simp [costNonTotal]
    · intro p hp; cases hp
  · rw [if_neg hrs]
    by_cases hc : costNonTotal rs = []
    · rw [if_pos hc]
      refine ⟨List.sorted_nil, ?_, ?_⟩
      · simp [hc]
      · intro p hp; cases hp
    · rw [if_neg hc]
      refine ⟨?_, ?_, ?_⟩
      · exact (List.sorted_insertionSort amtGe (serviceCostList rs)).sublist
          (List.take_sublist n _)
      · rw [List.length_take, List.length_insertionSort]
        unfold serviceCostList sortedDedup
        rw [List.length_map, List.length_insertionSort]
      · intro p hp
        have hp' : p ∈ serviceCostList rs :=
          (List.perm_insertionSort amtGe _).mem_iff.mp
            ((List.take_sublist n _).subset hp)
        unfold serviceCostList at hp'
        rw [List.mem_map] at hp'
        obtain ⟨s, hs, rfl⟩ := hp'
        exact ⟨sortedDedup_mem.mp hs, rfl⟩

/-- Witness for the amended C4 theorem at a concrete tied input. -/
theorem top_services_spec_witness :
    (getTopServices tiedEncounterRecs 2).length
      = min 2 ((costNonTotal tiedEncounterRecs).map (·.service)).dedup.length :=
  (top_services_spec tiedEncounterRecs 2).2.1

/-- C5 (counterexample): two rows for the same `(period_start, service)`
pair with amounts 10 and 20: the pivot cell is their MEAN 15 (pandas
`pivot_table` default `aggfunc='mean'`), not their sum 30 as the claim
states. -/
theorem service_trends_mean_counterexample :
    serviceTrendCell dupPairRecs 0 "EC2" = 15 ∧
    serviceTrendTable dupPairRecs = [(0, [("EC2", 15)])] ∧
    amountSum ((costNonTotal dupPairRecs).filter fun r =>
      r.startDate = 0 ∧ r.service = "EC2") = 30 ∧
    (15 : ℚ) ≠ 30 := by
  refine ⟨?_, ?_, ?_, ?_⟩ <;> with_unfolding_all decide

/-- C5 (amended): the trend table's rows are ordered strictly ascending
by `period_start`, each row's columns are exactly the distinct
non-`"Total"` services in ascending order, and each cell holds the MEAN
of the amounts of the matching primary-metric rows (`pivot_table`'s
default aggregation) with zero for missing combinations — which equals
the SUM whenever at most one matching row exists. -/
theorem service_trends_spec (rs : List CostRecord) :
    (serviceTrendTable rs).Pairwise (fun a b => a.1 < b.1) ∧
    ∀ row ∈ serviceTrendTable rs,
      row.2.map Prod.fst = sortedDedup ((costNonTotal rs).map (·.service)) ∧
      ∀ cell ∈ row.2,
        cell.2 = serviceTrendCell rs row.1 cell.1 ∧
        (((costNonTotal rs).filter fun r =>
            r.startDate = row.1 ∧ r.service = cell.1).length ≤ 1 →
          cell.2 = amountSum ((costNonTotal rs).filter fun r =>
            r.startDate = row.1 ∧ r.service = cell.1)) := by
  have hcell : ∀ d svc,
      ((costNonTotal rs).filter fun r =>
          r.startDate = d ∧ r.service = svc).length ≤ 1 →
      serviceTrendCell rs d svc
        = amountSum ((costNonTotal rs).filter fun r =>
            r.startDate = d ∧ r.service = svc) := by
    intro d svc hlen
    unfold serviceTrendCell
    by_cases hnil : ((costNonTotal rs).filter fun r =>
        r.startDate = d ∧ r.service = svc) = []
    · rw [if_pos hnil, hnil]
      rfl
    · rw [if_neg hnil]
      have h1 : ((costNonTotal rs).filter fun r =>
          r.startDate = d ∧ r.service = svc).length = 1 := by
        have := List.length_pos.mpr hnil
        omega
      obtain ⟨x, hx⟩ := List.length_eq_one.mp h1
      rw [hx]
      simp [amountSum]
  unfold serviceTrendTable
  by_cases hrs : rs = []
  · rw [if_pos hrs]
    exact ⟨List.Pairwise.nil, fun row hrow => absurd hrow (by simp)⟩
  · rw [if_neg hrs]
    by_cases hc : costNonTotal rs = []
    · rw [if_pos hc]
      exact ⟨List.Pairwise.nil, fun row hrow => absurd hrow (by simp)⟩
    · rw [if_neg hc]
      constructor
      · rw [List.pairwise_map]
        exact sortedDedupInt_pairwise_lt _
      · intro row hrow
        rw [List.mem_map] at hrow
        obtain ⟨d, hd, rfl⟩ := hrow
        constructor
        · rw [List.map_map]
          have hid : (Prod.fst ∘ fun s => (s, serviceTrendCell rs d s))
              = id := rfl
          rw [hid, List.map_id]
        · intro cell hcell'
          rw [List.mem_map] at hcell'
          obtain ⟨svc, hsvc, rfl⟩ := hcell'
          exact ⟨rfl, hcell d svc⟩

/-- Witness for the amended C5 theorem at the duplicate-pair input. -/
theorem service_trends_spec_witness :
    (serviceTrendTable dupPairRecs).Pairwise (fun a b => a.1 < b.1) :=
  (service_trends_spec dupPairRecs).1

/-- C6 (counterexample): a raw report whose single period entry lacks its
time-period dates makes normalization raise a `KeyError` (modelled as
`Except.error`) — it does not return an empty record set as the claim
states. -/
theorem malformed_period_counterexample :
    exOk (processResponse (some malformedResp)) = false ∧
    processResponse (some malformedResp) = .error "KeyError: TimePeriod" :=
  ⟨rfl, rfl⟩

/-- C6 (amended): normalization yields an empty record set exactly for an
absent/falsy report or one lacking the top-level `ResultsByTime` field; a
period entry missing `TimePeriod`, or having neither a `Groups` list nor
a `Total` mapping, instead makes the whole call raise a `KeyError` (no
record set, partial or empty, is returned). -/
theorem malformed_period_raises (results : List RawResult)
    (h : ∃ res ∈ results,
      res.timePeriod = none ∨ (res.groups = none ∧ res.total = none)) :
    processResponse none = .ok [] ∧
    (∀ r : RawResponse, r.resultsByTime = none →
      processResponse (some r) = .ok []) ∧
    exOk (processResponse (some ⟨some results⟩)) = false := by
  refine ⟨rfl, ?_, ?_⟩
  · intro r hr
    rcases r with ⟨rbt⟩
    cases rbt with
    | none => rfl
    | some l => exact Option.noConfusion hr
  · exact processResults_err results h

/-- Witness for the amended C6 theorem at a concrete malformed report. -/
theorem malformed_period_raises_witness :
    exOk (processResponse (some ⟨some [(⟨none, none, none⟩ : RawResult)]⟩))
      = false :=
  (malformed_period_raises [⟨none, none, none⟩]
    ⟨⟨none, none, none⟩, List.mem_cons_self _ _, Or.inl rfl⟩).2.2

/-- C7: if any amount string the normalizer visits fails to parse, the
whole call raises (no record set is returned, nothing is coerced to
zero); and on success every emitted record's amount is the parsed numeric
value of one of the visited source decimal strings. -/
theorem parse_error_propagates (results : List RawResult) :
    ((∃ s ∈ responseAmounts results, parseAmount s = none) →
      exOk (processResponse (some ⟨some results⟩)) = false) ∧
    ∀ recs, processResponse (some ⟨some results⟩) = .ok recs →
      ∀ rec ∈ recs, ∃ s ∈ responseAmounts results,
        parseAmount s = some rec.amount :=
  ⟨fun h => processResults_amounts_err results h,
   fun recs h => processResults_amounts_ok results recs h⟩

/-- Witness for C7 at a concrete report with amount string `"abc"`. -/
theorem parse_error_propagates_witness :
    exOk (processResponse (some badAmountResp)) = false :=
  (parse_error_propagates
    [⟨some (0, 30), some [⟨["EC2"], [("BlendedCost", ⟨"abc", "USD"⟩)]⟩],
      none⟩]).1
    ⟨"abc", by with_unfolding_all decide, by with_unfolding_all decide⟩

/-- C8: downstream operations given an empty or primary-metric-less
record set return their zero/empty sentinels: the normalizer on an
absent/empty raw report yields an empty record set, the summary yields
`{total_cost: 0, service_count: 0, time_periods: 0, top_service: "N/A",
top_service_cost: 0}`, the ranking is empty, the trend dict is empty, and
weekly re-bucketing of an empty set is empty. -/
theorem empty_inputs_spec (rs : List CostRecord)
    (h : ∀ r ∈ rs, ¬ r.metricName = "BlendedCost") :
    processResponse none = .ok [] ∧
    summarize [] = ⟨0, 0, 0, "N/A", 0⟩ ∧
    summarize rs = ⟨0, 0, 0, "N/A", 0⟩ ∧
    (∀ n, getTopServices [] n = []) ∧
    (∀ n, getTopServices rs n = []) ∧
    (∀ g, calculateCostTrends [] g = none) ∧
    (∀ g, calculateCostTrends rs g = none) ∧
    aggregateToWeekly [] = [] := by
  have hcost : (rs.filter fun r => r.metricName = "BlendedCost") = [] :=
    List.filter_eq_nil_iff.mpr fun r hr => by simpa using h r hr
  have hcnt : costNonTotal rs = [] :=
    List.filter_eq_nil_iff.mpr fun r hr => by
      simpa using fun hc => absurd hc (h r hr)
  refine ⟨rfl, by with_unfolding_all decide, ?_, ?_, ?_, ?_, ?_, rfl⟩
  · by_cases hrs : rs = []
    · subst hrs; with_unfolding_all decide
    · simp [summarize, if_neg hrs, hcost, hcnt, serviceCostList, sortedDedup,
        amountSum, firstMax]
  · intro n
    rfl
  · intro n
    unfold getTopServices
    by_cases hrs : rs = []
    · rw [if_pos hrs]
    · rw [if_neg hrs, if_pos hcnt]
  · intro g
    rfl
  · intro g
    unfold calculateCostTrends
    by_cases hrs : rs = []
    · rw [if_pos hrs]
    · rw [if_neg hrs]
      simp [hcost]

/-- Witness for C8 at a record set with no `BlendedCost` rows. -/
theorem empty_inputs_spec_witness :
    summarize metricLessRecs = ⟨0, 0, 0, "N/A", 0⟩ :=
  (empty_inputs_spec metricLessRecs (by with_unfolding_all decide)).2.2.1

/-- C9: weekly re-bucketing is sum-preserving for any record set carrying
a single metric, unit and service: the grand total of `Amount` over the
output records equals the grand total over the input records. -/
theorem weekly_rebucket_sum_preserving (rs : List CostRecord)
    (m u sv : String)
    (hm : ∀ r ∈ rs, r.metricName = m) (hu : ∀ r ∈ rs, r.unit = u)
    (hs : ∀ r ∈ rs, r.service = sv) :
    amountSum (aggregateToWeekly rs) = amountSum rs :=
  aggregateToWeekly_amountSum rs

/-- Witness for C9 at a two-record single-service input. -/
theorem weekly_rebucket_sum_preserving_witness :
    amountSum (aggregateToWeekly singleServiceRecs)
      = amountSum singleServiceRecs :=
  weekly_rebucket_sum_preserving singleServiceRecs "BlendedCost" "USD" "EC2"
    (by with_unfolding_all decide) (by with_unfolding_all decide)
    (by with_unfolding_all decide)

/-- C10: when two (or more) distinct non-`"Total"` services tie for the
maximal summed primary-metric amount, `generate_cost_summary` returns as
`top_service` the lexicographically smallest service attaining the
maximum (pandas `idxmax` takes the first index of the alphabetically
sorted grouped series), with `top_service_cost` the shared maximal sum. -/
theorem summary_top_service_tie (rs : List CostRecord) (s₁ s₂ : String)
    (m : ℚ) (hne : s₁ ≠ s₂)
    (h₁ : (s₁, m) ∈ serviceCostList rs)
    (h₂ : (s₂, m) ∈ serviceCostList rs)
    (hmax : ∀ p ∈ serviceCostList rs, p.2 ≤ m) :
    ((summarize rs).top_service, (summarize rs).top_service_cost)
        ∈ serviceCostList rs ∧
    (summarize rs).top_service_cost = m ∧
    ∀ s, (s, m) ∈ serviceCostList rs → (summarize rs).top_service ≤ s := by
  have hrs : rs ≠ [] := by
    intro hrs
    rw [hrs] at h₁
    simp [serviceCostList, costNonTotal, sortedDedup] at h₁
  have hnil : serviceCostList rs ≠ [] := by
    intro hn; rw [hn] at h₁; cases h₁
  obtain ⟨r, hr⟩ := Option.isSome_iff_exists.mp (firstMax_isSome _ hnil)
  obtain ⟨hrmem, hrmax, hrtie⟩ :=
    firstMax_spec _ (serviceCostList_pairwise rs) r hr
  have hrm : r.2 = m := le_antisymm (hmax r hrmem) (hrmax _ h₁)
  have htop : (summarize rs).top_service = r.1
      ∧ (summarize rs).top_service_cost = r.2 := by
    unfold summarize
    rw [if_neg hrs]
    dsimp only
    rw [hr]
    exact ⟨rfl, rfl⟩
  refine ⟨?_, ?_, ?_⟩
  · rw [htop.1, htop.2]
    exact hrmem
  · rw [htop.2, hrm]
  · intro s hs
    rw [htop.1]
    exact hrtie (s, m) hs hrm.symm

/-- Witness for C10 at a concrete input with `A` and `B` tied at 10. -/
theorem summary_top_service_tie_witness :
    (summarize tiedMaxRecs).top_service_cost = 10 :=
  (summary_top_service_tie tiedMaxRecs "A" "B" 10
    (by decide) (by with_unfolding_all decide) (by with_unfolding_all decide)
    (by with_unfolding_all decide)).2.1
